import Mathlib

/-!
# Verification of the bingo generator / bingo caller scripts

Shallow embedding of the algorithmic core of `bingo_generator.py` and
`bingo_caller.py`, together with theorems settling the specification
claims about grid dimensioning, card building, the draw scheduler, the
phrase resolver, the caller reference sheet, the interrupt summary and
interactive input handling.

Randomness (`random.shuffle`, `random.sample`) is modelled by universally
quantifying over the shuffled/sampled list, so every theorem holds for
every possible outcome of the random source.
-/

/-! ## Grid dimensioner (`bingo_generator.py`, `grid_dims`) -/

/-- `ceil(sqrt(n))` over the naturals: the Python code computes
`math.ceil(math.sqrt(n))`, which for the integer arguments in range is the
least `c` with `n ≤ c * c`. -/
def csqrt (n : Nat) : Nat :=
  if Nat.sqrt n * Nat.sqrt n = n then Nat.sqrt n else Nat.sqrt n + 1

/-- `grid_dims(n)` from `bingo_generator.py`:
`cols = math.ceil(math.sqrt(n)); rows = math.ceil(n / cols); return rows, cols`.
Ceiling division `math.ceil(n / cols)` on positive integers is
`(n + cols - 1) / cols`. -/
def grid_dims (n : Nat) : Nat × Nat :=
  let cols := csqrt n
  ((n + cols - 1) / cols, cols)

/-! ## Card builder (`bingo_generator.py`, `build_grid`)

The Python grid cells are strings: `""` (blank), `"FREE"`, or `str(num)`.
The three kinds are mutually distinct strings, modelled by a cell type. -/

/-- A cell of a bingo card: blank (`""`), the free-space marker (`"FREE"`),
or a number (`str(n)`). -/
inductive Cell where
  | blank : Cell
  | free : Cell
  | num : Int → Cell
  deriving DecidableEq, Repr

/-- The cell coordinates visited by the nested loop
`for r in range(rows): for c in range(cols)`, in row-major order:
the `i`-th visited cell is `(i / cols, i % cols)`. -/
def positions (rows cols : Nat) : List (Nat × Nat) :=
  (List.range (rows * cols)).map (fun i => (i / cols, i % cols))

/-- The test on line 45 of `bingo_generator.py`:
`free_center and rows == cols and r == cr and c == cc`, with
`cr, cc = rows // 2, cols // 2`. -/
def isCenter (free_center : Bool) (rows cols : Nat) (p : Nat × Nat) : Bool :=
  free_center && rows == cols && p.1 == rows / 2 && p.2 == cols / 2

/-- The body of the double loop of `build_grid`: walk the cells in order,
keeping the not-yet-placed numbers (`nums[idx:]`) as state; a free-center
cell gets `FREE`, otherwise the next number is placed while any remain
(`idx < len(nums)`), and the cell stays blank afterwards. -/
def fillLoop (isFree : Nat × Nat → Bool) : List (Nat × Nat) → List Int → List Cell
  | [], _ => []
  | p :: ps, nums =>
    if isFree p then Cell.free :: fillLoop isFree ps nums
    else
      match nums with
      | [] => Cell.blank :: fillLoop isFree ps []
      | n :: rest => Cell.num n :: fillLoop isFree ps rest

/-- `build_grid(numbers, rows, cols, free_center)` from `bingo_generator.py`,
as the row-major flattening of the produced 2-D grid: the Python cell
`grid[r][c]` is entry `r * cols + c` of this list.  The `random.shuffle`
on line 40 is modelled by taking the already-shuffled list as the
argument, so theorems quantifying over `nums` cover every shuffle
outcome. -/
def build_grid (nums : List Int) (rows cols : Nat) (free_center : Bool) : List Cell :=
  fillLoop (isCenter free_center rows cols) (positions rows cols) nums

/-- The numbers appearing on a card, in row-major order. -/
def gridNums : List Cell → List Int
  | [] => []
  | Cell.num n :: cs => n :: gridNums cs
  | Cell.free :: cs => gridNums cs
  | Cell.blank :: cs => gridNums cs

/-! ## Caller reference sheet (`bingo_generator.py`, `draw_caller_ax`) -/

/-- `list(range(start, end + 1))`: the ascending list of integers in
`[start, end]` (also the draw pool of `bingo_caller.py`, line 209). -/
def intRange (s e : Int) : List Int :=
  (List.range (e + 1 - s).toNat).map (fun (i : Nat) => s + (i : Int))

/-- `cols_cs = 10` in `draw_caller_ax`. -/
def cols_cs : Nat := 10

/-- `rows_cs = math.ceil(len(nums) / cols_cs)` in `draw_caller_ax`. -/
def rows_cs (s e : Int) : Nat :=
  ((intRange s e).length + cols_cs - 1) / cols_cs

/-- The reference-sheet layout of `draw_caller_ax`: for
`idx, num in enumerate(nums)` the cell is drawn at
`r = idx // cols_cs; c = idx % cols_cs`.  Each list entry is
`((r, c), num)`. -/
def caller_cells (s e : Int) : List ((Nat × Nat) × Int) :=
  (intRange s e).enum.map (fun p => ((p.1 / cols_cs, p.1 % cols_cs), p.2))

/-! ## Phrase resolver (`bingo_caller.py`, `PHRASES`, `_number_to_words`,
`get_phrase`) -/

/-- The fixed traditional-call table `PHRASES` of `bingo_caller.py`. -/
def PHRASES : List (Nat × String) :=
  [(1, "Kelly\x27s eye, number one"),
   (2, "One little duck, two"),
   (3, "Cup of tea, three"),
   (4, "Knock at the door, four"),
   (5, "Man alive, five"),
   (6, "Half a dozen, six"),
   (7, "Lucky seven"),
   (8, "Garden gate, eight"),
   (9, "Doctor\x27s orders, nine"),
   (10, "Prime Minister\x27s den, ten"),
   (11, "Legs eleven"),
   (12, "Dozen, twelve"),
   (13, "Unlucky for some, thirteen"),
   (14, "Valentine\x27s day, fourteen"),
   (16, "Sweet sixteen"),
   (18, "Coming of age, eighteen"),
   (21, "Key of the door, twenty one"),
   (22, "Two little ducks, twenty two"),
   (33, "Dirty knees, thirty three"),
   (40, "Life begins, forty"),
   (44, "Droopy drawers, forty four"),
   (55, "Snakes alive, fifty five"),
   (60, "Five dozen, sixty"),
   (66, "Clickety click, sixty six"),
   (69, "Anyway up, sixty nine"),
   (77, "Sunset strip, seventy seven"),
   (88, "Two fat ladies, eighty eight"),
   (90, "Top of the shop, ninety")]

/-- `_ONES` of `bingo_caller.py`. -/
def _ONES : List String :=
  ["zero", "one", "two", "three", "four", "five", "six", "seven", "eight",
   "nine", "ten", "eleven", "twelve", "thirteen", "fourteen", "fifteen",
   "sixteen", "seventeen", "eighteen", "nineteen"]

/-- `_TENS` of `bingo_caller.py`. -/
def _TENS : List String :=
  ["", "", "twenty", "thirty", "forty", "fifty", "sixty", "seventy",
   "eighty", "ninety"]

/-- Python's `str.strip()` on a character list: drop whitespace from the
front and from the back. -/
def stripChars (cs : List Char) : List Char :=
  ((cs.dropWhile Char.isWhitespace).reverse.dropWhile Char.isWhitespace).reverse

/-- Python's `str.strip()`. -/
def pyStrip (s : String) : String :=
  String.mk (stripChars s.data)

/-- Fuel-indexed version of the self-recursion of `_number_to_words`.
The recursive call happens only in the `n < 1000` branch, on `n % 100 < n`,
so fuel `n` always suffices and the fuel-0 case is unreachable from
`_number_to_words`.  (Structural recursion on the fuel keeps the function
kernel-reducible.) -/
def numWordsAux : Nat → Nat → String
  | 0, n => toString n
  | fuel + 1, n =>
    if n < 20 then _ONES.getD n ""
    else if n < 100 then
      pyStrip (_TENS.getD (n / 10) "" ++
        (if n % 10 ≠ 0 then " " ++ _ONES.getD (n % 10) "" else ""))
    else if n < 1000 then
      _ONES.getD (n / 100) "" ++ " hundred" ++
        (if n % 100 ≠ 0 then " and " ++ numWordsAux fuel (n % 100) else "")
    else toString n

/-- `_number_to_words(n)` from `bingo_caller.py`:
`n < 20` indexes `_ONES`; `n < 100` combines a tens-word with an optional
ones-word and strips (`_ONES[o]` is nonempty so the parenthesised string
has no outer whitespace beyond what `strip` removes); `n < 1000` combines
a hundreds-word with an optional `" and "`-prefixed recursive remainder;
`n ≥ 1000` falls back to `str(n)`. -/
def _number_to_words (n : Nat) : String :=
  numWordsAux (n + 1) n

/-- `get_phrase(n)` from `bingo_caller.py`:
`PHRASES[n] if n in PHRASES else _number_to_words(n)`. -/
def get_phrase (n : Nat) : String :=
  match PHRASES.lookup n with
  | some s => s
  | none => _number_to_words n

/-! ## Interactive input (`bingo_caller.py`, `get_int`;
`bingo_generator.py`, `get_inputs`) -/

/-- One interactive response, as `get_int` distinguishes them:
empty after `strip()`, non-numeric (so `int(val)` raises `ValueError`),
or a parsed integer. -/
inductive Entry where
  | empty : Entry
  | malformed : Entry
  | numeric : Int → Entry
  deriving DecidableEq, Repr

/-- `get_int(prompt, default, lo, hi)` from `bingo_caller.py`:
empty input returns the default; a parsed integer is clamped with
`max(lo, min(hi, int(val)))`; a `ValueError` returns the default. -/
def get_int (entry : Entry) (default lo hi : Int) : Int :=
  match entry with
  | Entry.empty => default
  | Entry.malformed => default
  | Entry.numeric v => max lo (min hi v)

/-- One round of the range prompt of `get_inputs` in `bingo_generator.py`
(lines 168-175): the loop accepts (`break`) only when both entries parse
as integers and `start < end`; any other outcome re-prompts (`none`). -/
def range_prompt_accepts (es ee : Entry) : Option (Int × Int) :=
  match es, ee with
  | Entry.numeric s, Entry.numeric e => if s < e then some (s, e) else none
  | _, _ => none

/-- One round of the per-card count prompt of `get_inputs`
(lines 178-184): accepts only a parsed integer with `1 ≤ count ≤ max_n`. -/
def count_prompt_accepts (maxN : Int) (ec : Entry) : Option Int :=
  match ec with
  | Entry.numeric c => if 1 ≤ c ∧ c ≤ maxN then some c else none
  | _ => none

/-! ## Interrupt summary (`bingo_caller.py`, `run_caller`, lines 218-242) -/

/-- The state of the caller loop after `k` iterations: `called` is the
prefix `numbers[:k]` of the shuffled draw order. -/
def summary_called (numbers : List Int) (k : Nat) : List Int :=
  numbers.take k

/-- The summary printed after the loop stops (normally or through
`KeyboardInterrupt` after `k` draws):
`uncalled = sorted(set(numbers) - set(called))`.  Python's `set` is
modelled by `dedup`, set difference by `filter`, and `sorted` by an
ascending sort. -/
def summary_uncalled (numbers : List Int) (k : Nat) : List Int :=
  ((numbers.dedup).filter
    (fun n => !(summary_called numbers k).contains n)).insertionSort (· ≤ ·)

/-! ## Lemmas about the grid dimensioner -/

theorem csqrt_le_sq (n : Nat) : n ≤ csqrt n * csqrt n := by
  unfold csqrt
  split
  case isTrue h => omega
  case isFalse h => exact (Nat.lt_succ_sqrt n).le

theorem csqrt_least {n c : Nat} (h : n ≤ c * c) : csqrt n ≤ c := by
  unfold csqrt
  split
  case isTrue heq =>
    calc Nat.sqrt n ≤ Nat.sqrt (c * c) := Nat.sqrt_le_sqrt h
    _ = c := Nat.sqrt_eq c
  case isFalse hne =>
    by_contra hc
    have hcs : c ≤ Nat.sqrt n := by omega
    have h1 : c * c ≤ Nat.sqrt n * Nat.sqrt n := Nat.mul_le_mul hcs hcs
    have h2 : Nat.sqrt n * Nat.sqrt n ≤ n := Nat.sqrt_le n
    have hcc : c * c = n := le_antisymm (h1.trans h2) h
    have : Nat.sqrt n = c := by rw [← hcc, Nat.sqrt_eq]
    exact hne (by omega)

theorem csqrt_pos {n : Nat} (h : 1 ≤ n) : 1 ≤ csqrt n := by
  by_contra hc
  have h0 : csqrt n = 0 := by omega
  have hle := csqrt_le_sq n
  rw [h0] at hle
  omega

/-- Evaluation principle for `csqrt`, used because `Nat.sqrt` is not
kernel-reducible: `csqrt n = c` whenever `(c-1)² < n ≤ c²`. -/
theorem csqrt_eq_of {n c : Nat} (h1 : n ≤ c * c) (h2 : (c - 1) * (c - 1) < n) :
    csqrt n = c := by
  refine le_antisymm (csqrt_least h1) ?_
  by_contra hc
  have hle : csqrt n ≤ c - 1 := by omega
  have := csqrt_le_sq n
  have : csqrt n * csqrt n ≤ (c - 1) * (c - 1) := Nat.mul_le_mul hle hle
  omega

theorem ceil_div_mul_ge {n c : Nat} (hc : 1 ≤ c) : n ≤ (n + c - 1) / c * c := by
  have hdm := Nat.div_add_mod (n + c - 1) c
  have hr : (n + c - 1) % c < c := Nat.mod_lt _ (by omega)
  rw [Nat.mul_comm]
  set Q := c * ((n + c - 1) / c) with hQ
  omega

theorem ceil_div_le {n c r : Nat} (hc : 1 ≤ c) (h : n ≤ r * c) :
    (n + c - 1) / c ≤ r := by
  rw [Nat.div_le_iff_le_mul_add_pred (by omega)]
  rw [Nat.mul_comm] at h
  set Q := c * r with hQ
  omega

/-- C1: for every `count ≥ 1`, `grid_dims` returns `(rows, cols)` with
`cols = ceil(sqrt(count))` (the least `c` with `count ≤ c²`),
`rows = ceil(count / cols)`, `rows * cols ≥ count`, `rows ≤ cols` (the
wider-than-tall bias), and `rows * cols` minimal in the sense of the
ceiling-sqrt rule: no smaller row count covers `count` with these `cols`;
in particular `grid_dims 10 = (3, 4)` and `grid_dims 25 = (5, 5)`. -/
theorem grid_dims_correct (n : Nat) (h : 1 ≤ n) :
    (grid_dims n).2 = csqrt n
    ∧ (n ≤ csqrt n * csqrt n ∧ ∀ c, n ≤ c * c → csqrt n ≤ c)
    ∧ (grid_dims n).1 = (n + (grid_dims n).2 - 1) / (grid_dims n).2
    ∧ n ≤ (grid_dims n).1 * (grid_dims n).2
    ∧ (grid_dims n).1 ≤ (grid_dims n).2
    ∧ (∀ r, n ≤ r * (grid_dims n).2 → (grid_dims n).1 ≤ r)
    ∧ grid_dims 10 = (3, 4) ∧ grid_dims 25 = (5, 5) := by
  have hc : 1 ≤ csqrt n := csqrt_pos h
  have hcols : (grid_dims n).2 = csqrt n := rfl
  have hrows : (grid_dims n).1 = (n + csqrt n - 1) / csqrt n := rfl
  refine ⟨rfl, ⟨csqrt_le_sq n, fun c hcc => csqrt_least hcc⟩, rfl, ?_, ?_, ?_, ?_, ?_⟩
  · rw [hrows, hcols]; exact ceil_div_mul_ge hc
  · rw [hrows, hcols]; exact ceil_div_le hc (csqrt_le_sq n)
  · intro r hr
    rw [hrows]
    exact ceil_div_le hc (by rwa [hcols] at hr)
  · have h10 : csqrt 10 = 4 := csqrt_eq_of (by norm_num) (by norm_num)
    show ((10 + csqrt 10 - 1) / csqrt 10, csqrt 10) = (3, 4)
    rw [h10]
  · have h25 : csqrt 25 = 5 := csqrt_eq_of (by norm_num) (by norm_num)
    show ((25 + csqrt 25 - 1) / csqrt 25, csqrt 25) = (5, 5)
    rw [h25]

/-- Witness for C1 at `count = 10`. -/
theorem grid_dims_correct_witness :
    1 ≤ 10
    ∧ ((grid_dims 10).2 = csqrt 10
      ∧ (10 ≤ csqrt 10 * csqrt 10 ∧ ∀ c, 10 ≤ c * c → csqrt 10 ≤ c)
      ∧ (grid_dims 10).1 = (10 + (grid_dims 10).2 - 1) / (grid_dims 10).2
      ∧ 10 ≤ (grid_dims 10).1 * (grid_dims 10).2
      ∧ (grid_dims 10).1 ≤ (grid_dims 10).2
      ∧ (∀ r, 10 ≤ r * (grid_dims 10).2 → (grid_dims 10).1 ≤ r)
      ∧ grid_dims 10 = (3, 4) ∧ grid_dims 25 = (5, 5)) :=
  ⟨by norm_num, grid_dims_correct 10 (by norm_num)⟩

/-! ## Lemmas about the card builder -/

theorem fillLoop_length (f : Nat × Nat → Bool) (ps : List (Nat × Nat)) :
    ∀ nums, (fillLoop f ps nums).length = ps.length := by
  induction ps with
  | nil => intro nums; rfl
  | cons p t ih =>
    intro nums
    unfold fillLoop
    split
    · simpa using ih nums
    · match nums with
      | [] => simpa using ih []
      | n :: rest => simpa using ih rest

theorem gridNums_fillLoop (f : Nat × Nat → Bool) (ps : List (Nat × Nat)) :
    ∀ nums, gridNums (fillLoop f ps nums)
      = nums.take (ps.countP (fun p => !f p)) := by
  induction ps with
  | nil => intro nums; simp [fillLoop, gridNums]
  | cons p t ih =>
    intro nums
    unfold fillLoop
    split
    case isTrue hf =>
      rw [List.countP_cons_of_neg _ _ (by simp [hf])]
      simpa [gridNums] using ih nums
    case isFalse hf =>
      rw [List.countP_cons_of_pos _ _ (by simp [Bool.not_eq_true] at hf ⊢; exact hf)]
      match nums with
      | [] => simpa [gridNums] using ih []
      | n :: rest => simpa [gridNums] using ih rest

theorem count_free_fillLoop (f : Nat × Nat → Bool) (ps : List (Nat × Nat)) :
    ∀ nums, (fillLoop f ps nums).count Cell.free = ps.countP f := by
  induction ps with
  | nil => intro nums; rfl
  | cons p t ih =>
    intro nums
    unfold fillLoop
    split
    case isTrue hf =>
      rw [List.countP_cons_of_pos _ _ hf, List.count_cons_self]
      rw [ih nums]
    case isFalse hf =>
      rw [List.countP_cons_of_neg _ _ (by simpa using hf)]
      match nums with
      | [] => rw [List.count_cons_of_ne (by simp)]; exact ih []
      | n :: rest => rw [List.count_cons_of_ne (by simp)]; exact ih rest

theorem count_blank_fillLoop (f : Nat × Nat → Bool) (ps : List (Nat × Nat)) :
    ∀ nums, (fillLoop f ps nums).count Cell.blank
      = ps.countP (fun p => !f p) - nums.length := by
  induction ps with
  | nil => intro nums; simp [fillLoop]
  | cons p t ih =>
    intro nums
    unfold fillLoop
    split
    case isTrue hf =>
      rw [List.countP_cons_of_neg _ _ (by simp [hf]), List.count_cons_of_ne (by simp)]
      exact ih nums
    case isFalse hf =>
      rw [List.countP_cons_of_pos _ _ (by simpa using hf)]
      match nums with
      | [] =>
        rw [List.count_cons_self, ih []]
        simp
      | n :: rest =>
        rw [List.count_cons_of_ne (by simp), ih rest]
        simp

theorem fillLoop_getElem_free (f : Nat × Nat → Bool) (ps : List (Nat × Nat)) :
    ∀ nums (i : Nat) (h : i < ps.length), f (ps.get ⟨i, h⟩) = true →
      (fillLoop f ps nums)[i]? = some Cell.free := by
  induction ps with
  | nil => intro nums i h; simp at h
  | cons p t ih =>
    intro nums i h hfree
    match i with
    | 0 =>
      simp only [List.get] at hfree
      unfold fillLoop
      rw [if_pos hfree]
      simp
    | j + 1 =>
      simp only [List.get] at hfree
      have hj : j < t.length := by simpa using h
      unfold fillLoop
      split
      · simpa using ih nums j hj hfree
      · match nums with
        | [] => simpa using ih [] j hj hfree
        | n :: rest => simpa using ih rest j hj hfree

theorem positions_length (rows cols : Nat) :
    (positions rows cols).length = rows * cols := by
  simp [positions]

theorem index_lt {rows cols r c : Nat} (hr : r < rows) (hc : c < cols) :
    r * cols + c < rows * cols := by
  calc r * cols + c < r * cols + cols := by omega
  _ = (r + 1) * cols := by ring
  _ ≤ rows * cols := Nat.mul_le_mul_right cols (by omega)

theorem positions_get {rows cols r c : Nat} (hr : r < rows) (hc : c < cols) :
    (positions rows cols)[r * cols + c]? = some (r, c) := by
  unfold positions
  rw [List.getElem?_map, List.getElem?_range (index_lt hr hc)]
  simp only [Option.map_some']
  congr 1
  have h1 : (r * cols + c) / cols = r := by
    rw [Nat.mul_comm, Nat.mul_add_div (by omega), Nat.div_eq_of_lt hc]
    omega
  have h2 : (r * cols + c) % cols = c := by
    rw [Nat.mul_comm, Nat.mul_add_mod, Nat.mod_eq_of_lt hc]
  rw [h1, h2]

theorem isCenter_eval {k i : Nat} (hk : 0 < k) :
    isCenter true k k (i / k, i % k) = (i == k / 2 * k + k / 2) := by
  have hdm := Nat.div_add_mod i k
  have hhalf : k / 2 < k := Nat.div_lt_self hk (by omega)
  rw [Bool.eq_iff_iff]
  simp only [isCenter, Bool.and_eq_true, beq_iff_eq]
  constructor
  · rintro ⟨⟨_, h1⟩, h2⟩
    rw [← hdm, h1, h2]
    ring
  · intro h
    subst h
    have h1 : (k / 2 * k + k / 2) / k = k / 2 := by
      rw [Nat.mul_comm, Nat.mul_add_div (by omega), Nat.div_eq_of_lt hhalf]
      omega
    have h2 : (k / 2 * k + k / 2) % k = k / 2 := by
      rw [Nat.mul_comm, Nat.mul_add_mod, Nat.mod_eq_of_lt hhalf]
    simp [h1, h2]

theorem countP_isCenter_square {k : Nat} (hk : 0 < k) :
    (positions k k).countP (isCenter true k k) = 1 := by
  unfold positions
  rw [List.countP_map]
  have hcongr : (List.range (k * k)).countP (isCenter true k k ∘ fun i => (i / k, i % k))
      = (List.range (k * k)).countP (fun i => i == k / 2 * k + k / 2) := by
    apply List.countP_congr
    intro i _
    rw [Function.comp_apply, isCenter_eval hk]
  rw [hcongr]
  have hmem : k / 2 * k + k / 2 ∈ List.range (k * k) := by
    rw [List.mem_range]
    exact index_lt (Nat.div_lt_self hk (by omega)) (Nat.div_lt_self hk (by omega))
  calc (List.range (k * k)).countP (fun i => i == k / 2 * k + k / 2)
      = (List.range (k * k)).count (k / 2 * k + k / 2) := rfl
  _ = 1 := List.count_eq_one_of_mem (List.nodup_range _) hmem

theorem isCenter_not_square {fc : Bool} {rows cols : Nat}
    (h : fc = false ∨ rows ≠ cols) (p : Nat × Nat) :
    isCenter fc rows cols p = false := by
  rcases h with h | h
  · simp [isCenter, h]
  · simp [isCenter, h]

theorem countP_isCenter (fc : Bool) (rows cols : Nat) :
    (positions rows cols).countP (isCenter fc rows cols)
      = if fc = true ∧ rows = cols ∧ 0 < rows then 1 else 0 := by
  split
  case isTrue h =>
    rcases h with ⟨hfc, hsq, hpos⟩
    subst hfc; subst hsq
    exact countP_isCenter_square hpos
  case isFalse h =>
    by_cases hfc : fc = true
    · by_cases hsq : rows = cols
      · have hz : rows = 0 := by
          by_contra hr
          exact h ⟨hfc, hsq, by omega⟩
        subst hsq; subst hfc
        rw [hz]
        rfl
      · subst hfc
        rw [List.countP_eq_zero.mpr]
        intro p _
        simp [isCenter_not_square (Or.inr hsq) p]
    · have hfc' : fc = false := by
        revert hfc; cases fc <;> simp
      rw [List.countP_eq_zero.mpr]
      intro p _
      simp [isCenter_not_square (Or.inl hfc') p]

theorem countP_not_add {α : Type} (p : α → Bool) (l : List α) :
    l.countP (fun a => !p a) + l.countP p = l.length := by
  induction l with
  | nil => rfl
  | cons a t ih =>
    by_cases h : p a = true
    · rw [List.countP_cons_of_pos _ _ h, List.countP_cons_of_neg _ _ (by simp [h])]
      simp only [List.length_cons]
      omega
    · rw [List.countP_cons_of_neg _ _ h, List.countP_cons_of_pos _ _ (by simpa using h)]
      simp only [List.length_cons]
      omega

theorem build_grid_center_free (nums : List Int) {k : Nat} (hk : 0 < k) :
    (build_grid nums k k true)[k / 2 * k + k / 2]? = some Cell.free := by
  have hhalf : k / 2 < k := Nat.div_lt_self hk (by omega)
  have hlt : k / 2 * k + k / 2 < (positions k k).length := by
    rw [positions_length]
    exact index_lt hhalf hhalf
  apply fillLoop_getElem_free _ _ _ _ hlt
  have hsome := @positions_get k k (k / 2) (k / 2) hhalf hhalf
  rw [List.getElem?_eq_getElem hlt] at hsome
  have hget : (positions k k).get ⟨k / 2 * k + k / 2, hlt⟩ = (k / 2, k / 2) := by
    rw [List.get_eq_getElem]
    exact Option.some.inj hsome
  rw [hget]
  simp [isCenter]

theorem gridNums_build_grid (nums : List Int) (rows cols : Nat) (fc : Bool) :
    gridNums (build_grid nums rows cols fc)
      = nums.take (rows * cols
          - (positions rows cols).countP (isCenter fc rows cols)) := by
  unfold build_grid
  rw [gridNums_fillLoop]
  congr 1
  have := countP_not_add (isCenter fc rows cols) (positions rows cols)
  rw [positions_length] at this
  omega

/-- C2: with `free_center = true` and a square `k × k` grid (`k ≥ 1`), the
exact center cell `(k/2, k/2)` (flat index `k/2 * k + k/2`) holds the
free-space marker and is excluded from number placement: the numbers
placed are exactly `nums.take (k*k - 1)`.  In the scenario range `1–90`,
count 24: `grid_dims 24 = (5, 5)`, and for every sampled list of 24
numbers, the marker sits at position `(2,2)` (flat index 12) of the `5×5`
grid, all 24 numbers appear (distinct when the sample is
duplicate-free, and all from the sample), and no cell is blank. -/
theorem build_grid_free_center_spec (nums : List Int) (k : Nat) (hk : 0 < k) :
    (build_grid nums k k true)[k / 2 * k + k / 2]? = some Cell.free
    ∧ gridNums (build_grid nums k k true) = nums.take (k * k - 1)
    ∧ grid_dims 24 = (5, 5)
    ∧ (k = 5 → nums.length = 24 →
        (build_grid nums 5 5 true)[12]? = some Cell.free
        ∧ gridNums (build_grid nums 5 5 true) = nums
        ∧ (gridNums (build_grid nums 5 5 true)).length = 24
        ∧ (build_grid nums 5 5 true).count Cell.free = 1
        ∧ (build_grid nums 5 5 true).count Cell.blank = 0
        ∧ (nums.Nodup → (gridNums (build_grid nums 5 5 true)).Nodup)
        ∧ (∀ x ∈ gridNums (build_grid nums 5 5 true), x ∈ nums)) := by
  have hnums : gridNums (build_grid nums k k true) = nums.take (k * k - 1) := by
    rw [gridNums_build_grid, countP_isCenter_square hk]
  have h5center : (build_grid nums 5 5 true)[12]? = some Cell.free := by
    have h := @build_grid_center_free nums 5 (by norm_num)
    norm_num at h
    exact h
  have h5nums : gridNums (build_grid nums 5 5 true) = nums.take 24 := by
    rw [gridNums_build_grid, @countP_isCenter_square 5 (by norm_num)]
  refine ⟨build_grid_center_free nums hk, hnums, ?_, ?_⟩
  · have h24 : csqrt 24 = 5 := csqrt_eq_of (by norm_num) (by norm_num)
    show ((24 + csqrt 24 - 1) / csqrt 24, csqrt 24) = (5, 5)
    rw [h24]
  · intro _ hlen
    have htake : nums.take 24 = nums := by
      rw [← hlen, List.take_length]
    refine ⟨h5center, by rw [h5nums, htake], by rw [h5nums, htake, hlen], ?_, ?_, ?_, ?_⟩
    · unfold build_grid
      rw [count_free_fillLoop, @countP_isCenter_square 5 (by norm_num)]
    · unfold build_grid
      rw [count_blank_fillLoop, hlen]
      have h1 : (positions 5 5).countP
          (fun p => !isCenter true 5 5 p) = 24 := by
        have hs := countP_not_add (isCenter true 5 5) (positions 5 5)
        rw [positions_length, @countP_isCenter_square 5 (by norm_num)] at hs
        omega
      rw [h1]
    · intro hnd
      rw [h5nums]
      exact (List.take_sublist _ _).nodup hnd
    · intro x hx
      rw [h5nums] at hx
      exact (List.take_sublist _ _).subset hx

/-- Witness for C2 at `k = 5` with the 24 sampled numbers `1..24`. -/
theorem build_grid_free_center_spec_witness :
    0 < 5
    ∧ ((build_grid [1, 2, 3, 4, 5, 6, 7, 8, 9, 10, 11, 12, 13, 14, 15, 16,
          17, 18, 19, 20, 21, 22, 23, 24] 5 5 true)[5 / 2 * 5 + 5 / 2]?
          = some Cell.free
      ∧ gridNums (build_grid [1, 2, 3, 4, 5, 6, 7, 8, 9, 10, 11, 12, 13, 14,
          15, 16, 17, 18, 19, 20, 21, 22, 23, 24] 5 5 true)
          = [1, 2, 3, 4, 5, 6, 7, 8, 9, 10, 11, 12, 13, 14, 15, 16, 17, 18,
             19, 20, 21, 22, 23, 24].take (5 * 5 - 1)
      ∧ grid_dims 24 = (5, 5)
      ∧ (5 = 5 → ([1, 2, 3, 4, 5, 6, 7, 8, 9, 10, 11, 12, 13, 14, 15, 16, 17,
            18, 19, 20, 21, 22, 23, 24] : List Int).length = 24 →
          (build_grid [1, 2, 3, 4, 5, 6, 7, 8, 9, 10, 11, 12, 13, 14, 15, 16,
            17, 18, 19, 20, 21, 22, 23, 24] 5 5 true)[12]? = some Cell.free
          ∧ gridNums (build_grid [1, 2, 3, 4, 5, 6, 7, 8, 9, 10, 11, 12, 13,
              14, 15, 16, 17, 18, 19, 20, 21, 22, 23, 24] 5 5 true)
              = [1, 2, 3, 4, 5, 6, 7, 8, 9, 10, 11, 12, 13, 14, 15, 16, 17,
                 18, 19, 20, 21, 22, 23, 24]
          ∧ (gridNums (build_grid [1, 2, 3, 4, 5, 6, 7, 8, 9, 10, 11, 12, 13,
              14, 15, 16, 17, 18, 19, 20, 21, 22, 23, 24] 5 5 true)).length = 24
          ∧ (build_grid [1, 2, 3, 4, 5, 6, 7, 8, 9, 10, 11, 12, 13, 14, 15,
              16, 17, 18, 19, 20, 21, 22, 23, 24] 5 5 true).count Cell.free = 1
          ∧ (build_grid [1, 2, 3, 4, 5, 6, 7, 8, 9, 10, 11, 12, 13, 14, 15,
              16, 17, 18, 19, 20, 21, 22, 23, 24] 5 5 true).count Cell.blank = 0
          ∧ (([1, 2, 3, 4, 5, 6, 7, 8, 9, 10, 11, 12, 13, 14, 15, 16, 17, 18,
              19, 20, 21, 22, 23, 24] : List Int).Nodup →
              (gridNums (build_grid [1, 2, 3, 4, 5, 6, 7, 8, 9, 10, 11, 12,
                13, 14, 15, 16, 17, 18, 19, 20, 21, 22, 23, 24] 5 5 true)).Nodup)
          ∧ (∀ x ∈ gridNums (build_grid [1, 2, 3, 4, 5, 6, 7, 8, 9, 10, 11,
              12, 13, 14, 15, 16, 17, 18, 19, 20, 21, 22, 23, 24] 5 5 true),
              x ∈ ([1, 2, 3, 4, 5, 6, 7, 8, 9, 10, 11, 12, 13, 14, 15, 16, 17,
                18, 19, 20, 21, 22, 23, 24] : List Int)))) :=
  ⟨by norm_num,
   build_grid_free_center_spec
     [1, 2, 3, 4, 5, 6, 7, 8, 9, 10, 11, 12, 13, 14, 15, 16, 17, 18, 19, 20,
      21, 22, 23, 24] 5 (by norm_num)⟩

/-- C3: for every duplicate-free candidate list of length at most
`rows*cols`, the produced card repeats no number; the free marker appears
at most once and never unless the grid is square with the free-center
option on; every cell is blank, the marker, or a number (the three counts
partition the `rows*cols` cells); the number of placed candidates is
`min (len nums) (rows*cols - #free)`; and blank cells occur exactly when
fewer candidates are available than the cells open to numbers. -/
theorem build_grid_invariants (nums : List Int) (rows cols : Nat) (fc : Bool)
    (hnd : nums.Nodup) (hlen : nums.length ≤ rows * cols) :
    (gridNums (build_grid nums rows cols fc)).Nodup
    ∧ (build_grid nums rows cols fc).count Cell.free ≤ 1
    ∧ ((fc = false ∨ rows ≠ cols) →
        (build_grid nums rows cols fc).count Cell.free = 0)
    ∧ (build_grid nums rows cols fc).length = rows * cols
    ∧ (build_grid nums rows cols fc).count Cell.blank
        + (build_grid nums rows cols fc).count Cell.free
        + (gridNums (build_grid nums rows cols fc)).length = rows * cols
    ∧ (gridNums (build_grid nums rows cols fc)).length
        = min nums.length
            (rows * cols - (build_grid nums rows cols fc).count Cell.free)
    ∧ (0 < (build_grid nums rows cols fc).count Cell.blank
        ↔ nums.length
            < rows * cols - (build_grid nums rows cols fc).count Cell.free) := by
  have hF : (build_grid nums rows cols fc).count Cell.free
      = (positions rows cols).countP (isCenter fc rows cols) :=
    count_free_fillLoop _ _ nums
  set F := (positions rows cols).countP (isCenter fc rows cols) with hFdef
  have hFle : F ≤ 1 := by
    rw [hFdef, countP_isCenter]
    split <;> omega
  have hFleN : F ≤ rows * cols := by
    rw [hFdef]
    calc (positions rows cols).countP (isCenter fc rows cols)
        ≤ (positions rows cols).length := List.countP_le_length _
    _ = rows * cols := positions_length rows cols
  have hnf : (positions rows cols).countP (fun p => !isCenter fc rows cols p)
      = rows * cols - F := by
    have := countP_not_add (isCenter fc rows cols) (positions rows cols)
    rw [positions_length] at this
    omega
  have hgn : gridNums (build_grid nums rows cols fc)
      = nums.take (rows * cols - F) := gridNums_build_grid nums rows cols fc
  have hgnlen : (gridNums (build_grid nums rows cols fc)).length
      = min (rows * cols - F) nums.length := by
    rw [hgn, List.length_take]
  have hB : (build_grid nums rows cols fc).count Cell.blank
      = (rows * cols - F) - nums.length := by
    unfold build_grid
    rw [count_blank_fillLoop, hnf]
  refine ⟨?_, ?_, ?_, ?_, ?_, ?_, ?_⟩
  · rw [hgn]
    exact (List.take_sublist _ _).nodup hnd
  · rw [hF]; exact hFle
  · intro h
    rw [hF, hFdef, countP_isCenter]
    rcases h with h | h
    · rw [if_neg (by simp [h])]
    · rw [if_neg (by simp [h])]
  · unfold build_grid
    rw [fillLoop_length, positions_length]
  · rw [hB, hF, hgnlen]
    omega
  · rw [hgnlen, hF]
    omega
  · rw [hB, hF]
    omega

/-- Witness for C3: a non-square `2 × 3` grid with the three candidates
`7, 8, 9` and `free_center = true`. -/
theorem build_grid_invariants_witness :
    ([7, 8, 9] : List Int).Nodup ∧ ([7, 8, 9] : List Int).length ≤ 2 * 3
    ∧ ((gridNums (build_grid [7, 8, 9] 2 3 true)).Nodup
      ∧ (build_grid [7, 8, 9] 2 3 true).count Cell.free ≤ 1
      ∧ ((true = false ∨ 2 ≠ 3) →
          (build_grid [7, 8, 9] 2 3 true).count Cell.free = 0)
      ∧ (build_grid [7, 8, 9] 2 3 true).length = 2 * 3
      ∧ (build_grid [7, 8, 9] 2 3 true).count Cell.blank
          + (build_grid [7, 8, 9] 2 3 true).count Cell.free
          + (gridNums (build_grid [7, 8, 9] 2 3 true)).length = 2 * 3
      ∧ (gridNums (build_grid [7, 8, 9] 2 3 true)).length
          = min ([7, 8, 9] : List Int).length
              (2 * 3 - (build_grid [7, 8, 9] 2 3 true).count Cell.free)
      ∧ (0 < (build_grid [7, 8, 9] 2 3 true).count Cell.blank
          ↔ ([7, 8, 9] : List Int).length
              < 2 * 3 - (build_grid [7, 8, 9] 2 3 true).count Cell.free)) :=
  ⟨by decide, by decide, build_grid_invariants [7, 8, 9] 2 3 true (by decide) (by decide)⟩

/-- C9: with `free_center = true`, a square `k × k` grid and exactly
`k*k` candidates (the most the precondition allows), only `k*k - 1` of
them are placed: the center holds the marker, no cell is blank, and the
last candidate of the shuffled list is silently dropped
(`gridNums = nums.dropLast`). -/
theorem build_grid_full_square_drops_last (nums : List Int) (k : Nat)
    (hk : 0 < k) (hlen : nums.length = k * k) :
    gridNums (build_grid nums k k true) = nums.dropLast
    ∧ (gridNums (build_grid nums k k true)).length = k * k - 1
    ∧ (build_grid nums k k true).count Cell.blank = 0
    ∧ (build_grid nums k k true)[k / 2 * k + k / 2]? = some Cell.free := by
  have hsq : 1 ≤ k * k := Nat.one_le_iff_ne_zero.mpr (by positivity)
  have hgn : gridNums (build_grid nums k k true) = nums.take (k * k - 1) := by
    rw [gridNums_build_grid, countP_isCenter_square hk]
  have hdl : nums.dropLast = nums.take (k * k - 1) := by
    rw [List.dropLast_eq_take, hlen]
  refine ⟨by rw [hgn, hdl], ?_, ?_, build_grid_center_free nums hk⟩
  · rw [hgn, List.length_take, hlen]
    omega
  · unfold build_grid
    rw [count_blank_fillLoop, hlen]
    have hnf : (positions k k).countP (fun p => !isCenter true k k p)
        = k * k - 1 := by
      have := countP_not_add (isCenter true k k) (positions k k)
      rw [positions_length, countP_isCenter_square hk] at this
      omega
    rw [hnf]
    omega

/-- Witness for C9 at `k = 2` with the four candidates `1, 2, 3, 4`:
the card holds `1, 2, 3`, the marker sits at cell `(1,1)` (flat index 3),
and the last shuffled candidate `4` is dropped. -/
theorem build_grid_full_square_drops_last_witness :
    0 < 2 ∧ ([1, 2, 3, 4] : List Int).length = 2 * 2
    ∧ (gridNums (build_grid [1, 2, 3, 4] 2 2 true)
        = ([1, 2, 3, 4] : List Int).dropLast
      ∧ (gridNums (build_grid [1, 2, 3, 4] 2 2 true)).length = 2 * 2 - 1
      ∧ (build_grid [1, 2, 3, 4] 2 2 true).count Cell.blank = 0
      ∧ (build_grid [1, 2, 3, 4] 2 2 true)[2 / 2 * 2 + 2 / 2]?
          = some Cell.free) :=
  ⟨by decide, by decide,
   build_grid_full_square_drops_last [1, 2, 3, 4] 2 (by decide) (by decide)⟩

/-! ## Lemmas about `intRange` -/

theorem intRange_length (s e : Int) : (intRange s e).length = (e + 1 - s).toNat := by
  simp [intRange]

theorem intRange_nodup (s e : Int) : (intRange s e).Nodup := by
  apply List.Nodup.map
  · intro a b h
    simp only at h
    omega
  · exact List.nodup_range _

theorem mem_intRange {s e n : Int} : n ∈ intRange s e ↔ s ≤ n ∧ n ≤ e := by
  simp only [intRange, List.mem_map, List.mem_range]
  constructor
  · rintro ⟨i, hi, rfl⟩
    omega
  · intro h
    exact ⟨(n - s).toNat, by omega, by omega⟩

/-- C4: for all bounds `start < end`, any order in which the caller can
shuffle the pool `list(range(start, end+1))` is a permutation of the
integers in `[start, end]`: its length is `end - start + 1`, it has no
duplicates, it contains exactly the integers of the range, each with
multiplicity one, and its multiset equals the range's multiset. -/
theorem run_caller_draw_permutation (s e : Int) (seq : List Int)
    (hse : s < e) (hp : seq.Perm (intRange s e)) :
    seq.length = (e + 1 - s).toNat
    ∧ ((seq.length : Int) = e - s + 1)
    ∧ seq.Nodup
    ∧ (∀ n : Int, n ∈ seq ↔ s ≤ n ∧ n ≤ e)
    ∧ (∀ n : Int, seq.count n = if s ≤ n ∧ n ≤ e then 1 else 0)
    ∧ (seq : Multiset Int) = (intRange s e : Multiset Int) := by
  have hlen : seq.length = (e + 1 - s).toNat := by
    rw [hp.length_eq, intRange_length]
  have hnd : seq.Nodup := hp.nodup_iff.mpr (intRange_nodup s e)
  have hmem : ∀ n : Int, n ∈ seq ↔ s ≤ n ∧ n ≤ e := fun n => by
    rw [hp.mem_iff, mem_intRange]
  refine ⟨hlen, by rw [hlen]; omega, hnd, hmem, ?_, Multiset.coe_eq_coe.mpr hp⟩
  intro n
  by_cases h : s ≤ n ∧ n ≤ e
  · rw [if_pos h]
    exact List.count_eq_one_of_mem hnd ((hmem n).mpr h)
  · rw [if_neg h]
    exact List.count_eq_zero_of_not_mem (fun hm => h ((hmem n).mp hm))

/-- Witness for C4: the shuffle outcome `[2, 3, 1]` of the pool for the
range `[1, 3]`. -/
theorem run_caller_draw_permutation_witness :
    (1 : Int) < 3 ∧ ([2, 3, 1] : List Int).Perm (intRange 1 3)
    ∧ (([2, 3, 1] : List Int).length = ((3 : Int) + 1 - 1).toNat
      ∧ ((([2, 3, 1] : List Int).length : Int) = 3 - 1 + 1)
      ∧ ([2, 3, 1] : List Int).Nodup
      ∧ (∀ n : Int, n ∈ ([2, 3, 1] : List Int) ↔ 1 ≤ n ∧ n ≤ 3)
      ∧ (∀ n : Int, ([2, 3, 1] : List Int).count n
          = if 1 ≤ n ∧ n ≤ 3 then 1 else 0)
      ∧ (([2, 3, 1] : List Int) : Multiset Int)
          = ((intRange 1 3 : List Int) : Multiset Int)) :=
  ⟨by norm_num, by decide,
   run_caller_draw_permutation 1 3 [2, 3, 1] (by norm_num) (by decide)⟩

/-! ## Reference-sheet lemmas -/

theorem intRange_getElem (s e : Int) (i : Nat)
    (hi : i < (intRange s e).length) :
    (intRange s e)[i]? = some (s + i) := by
  rw [intRange_length] at hi
  unfold intRange
  rw [List.getElem?_map, List.getElem?_range hi]
  rfl

theorem caller_cells_length (s e : Int) :
    (caller_cells s e).length = (intRange s e).length := by
  simp [caller_cells]

/-- C6: the reference sheet lays out all numbers of `[start, end]`
sequentially, unshuffled: it has `end - start + 1` entries, the `i`-th
entry is the number `start + i` at row `i / 10`, column `i % 10`
(row-major, 10 per row), the listed numbers are exactly the range in
order without omission or duplication, and the row count is
`ceil((end - start + 1) / 10)`; for `[1, 90]` that is 90 entries in 9
rows. -/
theorem caller_sheet_layout (s e : Int) (hse : s ≤ e) :
    (caller_cells s e).length = (e + 1 - s).toNat
    ∧ (((caller_cells s e).length : Int) = e - s + 1)
    ∧ (∀ i : Nat, i < (caller_cells s e).length →
        (caller_cells s e)[i]? = some ((i / 10, i % 10), s + i))
    ∧ (caller_cells s e).map (fun q => q.2) = intRange s e
    ∧ (intRange s e).Nodup
    ∧ (∀ n : Int, n ∈ intRange s e ↔ s ≤ n ∧ n ≤ e)
    ∧ rows_cs s e = ((e + 1 - s).toNat + 10 - 1) / 10
    ∧ rows_cs 1 90 = 9
    ∧ (intRange 1 90).length = 90 := by
  have hlen : (caller_cells s e).length = (e + 1 - s).toNat := by
    rw [caller_cells_length, intRange_length]
  refine ⟨hlen, by rw [hlen]; omega, ?_, ?_, intRange_nodup s e,
    fun n => mem_intRange, ?_, ?_, ?_⟩
  · intro i hi
    rw [caller_cells_length] at hi
    unfold caller_cells
    rw [List.getElem?_map, List.getElem?_enum, intRange_getElem s e i hi]
    rfl
  · unfold caller_cells
    rw [List.map_map]
    exact List.enum_map_snd _
  · rw [rows_cs, intRange_length]
    rfl
  · rw [rows_cs, intRange_length]
    decide
  · rw [intRange_length]
    decide

/-- Witness for C6 at the range `[1, 90]`. -/
theorem caller_sheet_layout_witness :
    (1 : Int) ≤ 90
    ∧ ((caller_cells 1 90).length = ((90 : Int) + 1 - 1).toNat
      ∧ (((caller_cells 1 90).length : Int) = 90 - 1 + 1)
      ∧ (∀ i : Nat, i < (caller_cells 1 90).length →
          (caller_cells 1 90)[i]? = some ((i / 10, i % 10), (1 : Int) + (i : Int)))
      ∧ (caller_cells 1 90).map (fun q => q.2) = intRange 1 90
      ∧ (intRange 1 90).Nodup
      ∧ (∀ n : Int, n ∈ intRange 1 90 ↔ 1 ≤ n ∧ n ≤ 90)
      ∧ rows_cs 1 90 = (((90 : Int) + 1 - 1).toNat + 10 - 1) / 10
      ∧ rows_cs 1 90 = 9
      ∧ (intRange 1 90).length = 90) :=
  ⟨by norm_num, caller_sheet_layout 1 90 (by norm_num)⟩

/-! ## Phrase-resolver lemmas -/

theorem lookup_eq_none_of_ne (l : List (Nat × String)) (n : Nat)
    (h : ∀ p ∈ l, p.1 ≠ n) : l.lookup n = none := by
  induction l with
  | nil => rfl
  | cons p t ih =>
    match p with
    | (k, v) =>
      rw [List.lookup_cons]
      have hk : (n == k) = false := by
        simp only [beq_eq_false_iff_ne, ne_eq]
        intro he
        exact h (k, v) (List.mem_cons_self _ _) he.symm
      rw [hk]
      exact ih (fun q hq => h q (List.mem_cons_of_mem _ hq))

theorem PHRASES_keys_lt : ∀ p ∈ PHRASES, p.1 < 1000 := by decide

theorem get_phrase_big (n : Nat) (h : 1000 ≤ n) : get_phrase n = toString n := by
  unfold get_phrase
  rw [lookup_eq_none_of_ne PHRASES n
    (fun p hp => by have := PHRASES_keys_lt p hp; omega)]
  show _number_to_words n = toString n
  unfold _number_to_words
  simp only [numWordsAux]
  rw [if_neg (by omega), if_neg (by omega), if_neg (by omega)]

set_option maxRecDepth 10000 in
set_option maxHeartbeats 4000000 in
theorem get_phrase_small_ne_empty : ∀ m : Fin 1000, get_phrase m.val ≠ "" := by
  decide

/-- C5: the phrase resolver is total: for every `n` in `0–999` it returns
a non-empty string; for every key of the fixed traditional-call table it
returns exactly that table's string; and every `n ≥ 1000` falls back to
the decimal digit string `str(n)`. -/
theorem get_phrase_resolver_spec :
    (∀ n : Nat, n < 1000 → get_phrase n ≠ "")
    ∧ (∀ p ∈ PHRASES, get_phrase p.1 = p.2)
    ∧ (∀ n : Nat, 1000 ≤ n → get_phrase n = toString n) :=
  ⟨fun n h => get_phrase_small_ne_empty ⟨n, h⟩,
   by decide,
   fun n h => get_phrase_big n h⟩

/-! ## Interrupt-summary lemmas -/

theorem filter_split_take_drop (numbers : List Int) (k : Nat) (P : Int → Bool)
    (h1 : ∀ a ∈ numbers.take k, P a = false)
    (h2 : ∀ a ∈ numbers.drop k, P a = true) :
    numbers.filter P = numbers.drop k := by
  conv_lhs => rw [← List.take_append_drop k numbers]
  rw [List.filter_append, List.filter_eq_nil_iff.mpr (by simp_all),
    List.filter_eq_self.mpr h2, List.nil_append]

theorem summary_uncalled_eq (numbers : List Int) (k : Nat)
    (hnd : numbers.Nodup) :
    summary_uncalled numbers k = (numbers.drop k).insertionSort (· ≤ ·) := by
  unfold summary_uncalled
  rw [List.dedup_eq_self.mpr hnd]
  congr 1
  have hnd2 := hnd
  rw [← List.take_append_drop k numbers] at hnd2
  rcases List.nodup_append.mp hnd2 with ⟨-, -, hdisj⟩
  apply filter_split_take_drop
  · intro a ha
    simpa [summary_called] using ha
  · intro a ha
    simp only [summary_called, Bool.not_eq_true']
    simp only [List.contains, Bool.not_eq_true', ← Bool.not_eq_true]
    intro hc
    exact hdisj (List.mem_of_elem_eq_true hc) ha

/-- C7: when the caller loop is stopped after delivering the prefix
`numbers[:k]` of the shuffled sequence, the summary reports `k` called
out of the full total, and the uncalled numbers are exactly the
set-difference between the range `[start, end]` and the delivered prefix,
sorted strictly ascending; in the `1–5` run stopped after the 2 draws
`3, 1`, it reports `2/5` and the uncalled list `[2, 4, 5]`. -/
theorem run_caller_interrupt_summary (s e : Int) (numbers : List Int) (k : Nat)
    (hp : numbers.Perm (intRange s e)) (hk : k ≤ numbers.length) :
    (summary_called numbers k).length = k
    ∧ (summary_uncalled numbers k).Sorted (· < ·)
    ∧ (∀ n : Int, n ∈ summary_uncalled numbers k
        ↔ (s ≤ n ∧ n ≤ e) ∧ n ∉ summary_called numbers k)
    ∧ (summary_called numbers k).length + (summary_uncalled numbers k).length
        = numbers.length
    ∧ numbers.length = (intRange s e).length
    ∧ summary_called [3, 1, 5, 2, 4] 2 = [3, 1]
    ∧ summary_uncalled [3, 1, 5, 2, 4] 2 = [2, 4, 5] := by
  have hnd : numbers.Nodup := hp.nodup_iff.mpr (intRange_nodup s e)
  have hnd2 := hnd
  rw [← List.take_append_drop k numbers] at hnd2
  rcases List.nodup_append.mp hnd2 with ⟨-, hnddrop, hdisj⟩
  have hun := summary_uncalled_eq numbers k hnd
  have hsorted : (summary_uncalled numbers k).Sorted (· ≤ ·) := by
    rw [hun]
    exact List.sorted_insertionSort _ _
  have hnodup : (summary_uncalled numbers k).Nodup := by
    rw [hun]
    exact (List.perm_insertionSort _ _).nodup_iff.mpr hnddrop
  have hmemdrop : ∀ n : Int, n ∈ numbers.drop k
      ↔ n ∈ numbers ∧ n ∉ numbers.take k := by
    intro n
    constructor
    · intro h
      exact ⟨(List.drop_sublist _ _).subset h, fun ht => hdisj ht h⟩
    · rintro ⟨hmem, hnt⟩
      rw [← List.take_append_drop k numbers, List.mem_append] at hmem
      exact hmem.resolve_left hnt
  refine ⟨?_, ?_, ?_, ?_, hp.length_eq, by decide, by decide⟩
  · rw [summary_called, List.length_take]
    omega
  · exact (hsorted.and hnodup).imp (fun h => lt_of_le_of_ne h.1 h.2)
  · intro n
    rw [hun, List.mem_insertionSort, hmemdrop, hp.mem_iff, mem_intRange]
    rfl
  · rw [summary_called, List.length_take, hun, List.length_insertionSort,
      List.length_drop]
    omega

/-- Witness for C7: the shuffle `[3, 1, 5, 2, 4]` of the pool `1–5`,
stopped after 2 draws. -/
theorem run_caller_interrupt_summary_witness :
    ([3, 1, 5, 2, 4] : List Int).Perm (intRange 1 5)
    ∧ 2 ≤ ([3, 1, 5, 2, 4] : List Int).length
    ∧ ((summary_called [3, 1, 5, 2, 4] 2).length = 2
      ∧ (summary_uncalled [3, 1, 5, 2, 4] 2).Sorted (· < ·)
      ∧ (∀ n : Int, n ∈ summary_uncalled [3, 1, 5, 2, 4] 2
          ↔ ((1 : Int) ≤ n ∧ n ≤ 5) ∧ n ∉ summary_called [3, 1, 5, 2, 4] 2)
      ∧ (summary_called [3, 1, 5, 2, 4] 2).length
          + (summary_uncalled [3, 1, 5, 2, 4] 2).length
          = ([3, 1, 5, 2, 4] : List Int).length
      ∧ ([3, 1, 5, 2, 4] : List Int).length = (intRange 1 5).length
      ∧ summary_called [3, 1, 5, 2, 4] 2 = [3, 1]
      ∧ summary_uncalled [3, 1, 5, 2, 4] 2 = [2, 4, 5]) :=
  ⟨by decide, by decide,
   run_caller_interrupt_summary 1 5 [3, 1, 5, 2, 4] 2 (by decide) (by decide)⟩

/-! ## Interactive-input theorems -/

/-- C8: for the interactive numeric prompts that carry bounds and a
default (`get_int`), malformed or out-of-bounds input is never fatal: a
numeric entry is clamped by `max(lo, min(hi, value))` and so lands in
`[lo, hi]` whenever `lo ≤ hi`, while an empty or non-numeric entry yields
the stated default.  `get_int` itself never re-prompts; the only
re-prompting loops are the generator's structural-precondition checks,
which accept exactly when `start < end` (range prompt) or
`1 ≤ count ≤ max_n` (count prompt). -/
theorem get_int_validation (d lo hi v : Int) (hlohi : lo ≤ hi) :
    get_int (Entry.numeric v) d lo hi = max lo (min hi v)
    ∧ lo ≤ get_int (Entry.numeric v) d lo hi
    ∧ get_int (Entry.numeric v) d lo hi ≤ hi
    ∧ get_int Entry.empty d lo hi = d
    ∧ get_int Entry.malformed d lo hi = d
    ∧ (∀ es ee : Entry, (range_prompt_accepts es ee).isSome →
        ∃ a b : Int, es = Entry.numeric a ∧ ee = Entry.numeric b ∧ a < b
          ∧ range_prompt_accepts es ee = some (a, b))
    ∧ (∀ s E : Int, s < E →
        range_prompt_accepts (Entry.numeric s) (Entry.numeric E) = some (s, E))
    ∧ (∀ mx : Int, ∀ ec : Entry, (count_prompt_accepts mx ec).isSome →
        ∃ c : Int, ec = Entry.numeric c ∧ 1 ≤ c ∧ c ≤ mx
          ∧ count_prompt_accepts mx ec = some c) := by
  refine ⟨rfl, le_max_left lo _, ?_, rfl, rfl, ?_, ?_, ?_⟩
  · show max lo (min hi v) ≤ hi
    exact max_le hlohi (min_le_left hi v)
  · intro es ee h
    match es, ee with
    | Entry.numeric a, Entry.numeric b =>
      refine ⟨a, b, rfl, rfl, ?_, ?_⟩
      · by_contra hab
        rw [show range_prompt_accepts (Entry.numeric a) (Entry.numeric b)
            = if a < b then some (a, b) else none from rfl, if_neg hab] at h
        simp at h
      · have hab : a < b := by
          by_contra hab
          rw [show range_prompt_accepts (Entry.numeric a) (Entry.numeric b)
              = if a < b then some (a, b) else none from rfl, if_neg hab] at h
          simp at h
        show (if a < b then some (a, b) else none) = some (a, b)
        rw [if_pos hab]
    | Entry.numeric _, Entry.empty => exact absurd h (by simp [range_prompt_accepts])
    | Entry.numeric _, Entry.malformed => exact absurd h (by simp [range_prompt_accepts])
    | Entry.empty, _ => exact absurd h (by simp [range_prompt_accepts])
    | Entry.malformed, _ => exact absurd h (by simp [range_prompt_accepts])
  · intro s E hsE
    show (if s < E then some (s, E) else none) = some (s, E)
    rw [if_pos hsE]
  · intro mx ec h
    match ec with
    | Entry.numeric c =>
      have hc : 1 ≤ c ∧ c ≤ mx := by
        by_contra hcc
        rw [show count_prompt_accepts mx (Entry.numeric c)
            = if 1 ≤ c ∧ c ≤ mx then some c else none from rfl, if_neg hcc] at h
        simp at h
      refine ⟨c, rfl, hc.1, hc.2, ?_⟩
      show (if 1 ≤ c ∧ c ≤ mx then some c else none) = some c
      rw [if_pos hc]
    | Entry.empty => exact absurd h (by simp [count_prompt_accepts])
    | Entry.malformed => exact absurd h (by simp [count_prompt_accepts])

/-- Witness for C8: default 10, bounds `[1, 60]`, numeric entry 100
(clamped to 60). -/
theorem get_int_validation_witness :
    (1 : Int) ≤ 60
    ∧ (get_int (Entry.numeric 100) 10 1 60 = max 1 (min 60 100)
      ∧ (1 : Int) ≤ get_int (Entry.numeric 100) 10 1 60
      ∧ get_int (Entry.numeric 100) 10 1 60 ≤ 60
      ∧ get_int Entry.empty 10 1 60 = 10
      ∧ get_int Entry.malformed 10 1 60 = 10
      ∧ (∀ es ee : Entry, (range_prompt_accepts es ee).isSome →
          ∃ a b : Int, es = Entry.numeric a ∧ ee = Entry.numeric b ∧ a < b
            ∧ range_prompt_accepts es ee = some (a, b))
      ∧ (∀ s E : Int, s < E →
          range_prompt_accepts (Entry.numeric s) (Entry.numeric E) = some (s, E))
      ∧ (∀ mx : Int, ∀ ec : Entry, (count_prompt_accepts mx ec).isSome →
          ∃ c : Int, ec = Entry.numeric c ∧ 1 ≤ c ∧ c ≤ mx
            ∧ count_prompt_accepts mx ec = some c)) :=
  ⟨by norm_num, get_int_validation 10 1 60 100 (by norm_num)⟩

/-- C10: on empty or non-numeric input `get_int` returns the default
verbatim, without clamping it into `[lo, hi]`; hence in `run_caller`,
with `START = 100` the END prompt (default 90, lower bound `start + 1 =
101`) answers 90 on empty input, so the configured range has
`end < start`. -/
theorem get_int_default_bypasses_clamp :
    (∀ d lo hi : Int, get_int Entry.empty d lo hi = d
      ∧ get_int Entry.malformed d lo hi = d)
    ∧ get_int (Entry.numeric 100) 1 1 999 = 100
    ∧ get_int Entry.empty 90 (100 + 1) 999 = 90
    ∧ get_int Entry.empty 90 (100 + 1) 999 < 100 + 1
    ∧ get_int Entry.empty 90 (100 + 1) 999
        < get_int (Entry.numeric 100) 1 1 999 :=
  ⟨fun d lo hi => ⟨rfl, rfl⟩, by decide, by decide, by decide, by decide⟩
